import Mathlib

/-!
Verification development for the `rag` CLI tool (documentation
synchronization engine).

The development shallowly embeds the TypeScript sources:

* `src/commands/docs/add.ts` / `update.ts` (the `add` and `update`
  commands, with the helper `delete_files_and_chunks`),
* `src/commands/docs/remove.ts` (the `remove` command),
* `src/commands/docs/common.ts` (`add_file_to_documentation`),
* `src/config.ts` (the memoized `config.get`),
* the SQLite schema from `src/db.ts` (tables `documentations`,
  `files`, `chunks`).

The database CRUD primitives (`db.documentations.*`, `db.files.*`,
`db.chunks.*`) are declared and called by the commands but not yet
implemented in the repository; following the specification (§3 data
model, §4.4 corpus store) they are modelled as list-of-rows operations
with a fresh-id counter.  External collaborators (git checkout, the
content hasher, the markdown chunker, the embedding backend, YAML
serialization) are abstracted as an environment record `Env`; the
commands are deterministic functions of that environment.

Timestamps (`created_at` / `updated_at`) play no role in any claim
settled here and are omitted from the row types.

Each synchronizing operation returns the error it threw (if any, as
`Option String` — in the tool a thrown error aborts the process, so
the returned state is the state the store is left in), the resulting
store, and the trace of texts that were sent to the embedding backend
during the operation (one entry per call of `embed`).
-/

namespace Rag

/-- Row of the `documentations` table (schema in `src/db.ts`): one tracked
documentation source.  `name` is unique. -/
structure Documentation where
  id : Nat
  name : String
  repo_url : String
  subdir : String
  branch : String
deriving DecidableEq

/-- Row of the `files` table (schema in `src/db.ts`): one markdown file of a
documentation.  `path` is the relative path inside the repository, `hash`
the content fingerprint stored at last sync. -/
structure File where
  id : Nat
  documentation_id : Nat
  path : String
  hash : String
deriving DecidableEq

/-- Row of the `chunks` table (schema in `src/db.ts`): one chunk of a file
together with its embedding vector.  The embedding (a float vector in the
tool) is abstracted as a list of integers; only equality of vectors matters
for the claims. -/
structure Chunk where
  id : Nat
  file_id : Nat
  index : Nat
  metadata : String
  content : String
  embedding : List Int
deriving DecidableEq

/-- Modelled from the spec: the corpus store (§3, §4.4).  Three tables of
rows plus a surrogate-key counter `next_id`; every `create` hands out
`next_id` as the new row id and increments it, so ids are never reused. -/
structure DB where
  documentations : List Documentation
  files : List File
  chunks : List Chunk
  next_id : Nat
deriving DecidableEq

/-- A chunk draft as produced by `get_file_chunks`: content plus structured
metadata (metadata is opaque here; only its serialized form matters). -/
structure ChunkDraft where
  metadata : String
  content : String
deriving DecidableEq

/-- Environment of external collaborators (spec §6).
`checkout repo_url branch subdir` is the repository fetcher composed with
the markdown file enumerator: the association list of relative markdown
paths to their on-disk contents, in enumeration order.
`hash` is the `ContentHasher` applied to file content (deterministic, pure).
`get_file_chunks` is the `MarkdownChunker` applied to file content.
`embed` is the embedding backend: it may fail (retries exhausted), which in
the tool throws and aborts the running operation.
`yaml_stringify` is `yaml.stringify` applied to chunk metadata. -/
structure Env where
  checkout : String → String → String → List (String × String)
  hash : String → String
  get_file_chunks : String → List ChunkDraft
  embed : String → Except String (List Int)
  yaml_stringify : String → String

/-- Content of the on-disk file at relative path `p` (empty if absent; the
commands only look up paths enumerated from the checkout, where a content
is always present). -/
def lookup_content (disk : List (String × String)) (p : String) : String :=
  ((disk.find? (fun e => e.1 == p)).map (fun e => e.2)).getD ""

/-- The function `clone_repo` (declared in the repository, modelled from the
spec §6): yields the checked-out tree at `(repo_url, branch, subdir)`. -/
def clone_repo (env : Env) (repo_url branch subdir : String) :
    List (String × String) :=
  env.checkout repo_url branch subdir

/-- The function `get_md_files` (declared in the repository, modelled from
the spec §6): the enumerated relative paths of the checked-out tree. -/
def get_md_files (disk : List (String × String)) : List String :=
  disk.map Prod.fst

/-- The function `hash_file` (declared in the repository, modelled from the
spec §4.1): the content fingerprint of the file at path `p`. -/
def hash_file (env : Env) (disk : List (String × String)) (p : String) :
    String :=
  env.hash (lookup_content disk p)

/-- Modelled from the spec: `db.documentations.has(name)` — "does a
Documentation with this name exist" (§4.4). -/
def documentations_has (db : DB) (name : String) : Bool :=
  db.documentations.any (fun d => d.name == name)

/-- Modelled from the spec: `db.documentations.get(name)` — the
documentation row with this (unique) name, if any. -/
def documentations_get (db : DB) (name : String) : Option Documentation :=
  db.documentations.find? (fun d => d.name == name)

/-- Modelled from the spec: `db.documentations.create({name, repo_url,
subdir, branch})` — inserts a row with a fresh id and returns it. -/
def documentations_create (db : DB) (name repo_url subdir branch : String) :
    Documentation × DB :=
  let d : Documentation := ⟨db.next_id, name, repo_url, subdir, branch⟩
  (d, { db with documentations := db.documentations ++ [d],
                next_id := db.next_id + 1 })

/-- Options of `rag docs update`: each of `repo_url`, `subdir`, `branch` may
be provided or absent (optional CLI flags). -/
structure UpdateOptions where
  repo_url : Option String
  subdir : Option String
  branch : Option String
deriving DecidableEq

/-- Modelled from the spec: merging provided update options into a
documentation row ("Merges any provided repo\x5furl/subdir/branch into the
Documentation row", §4.5). -/
def merge_options (d : Documentation) (o : UpdateOptions) : Documentation :=
  { d with repo_url := o.repo_url.getD d.repo_url,
           subdir := o.subdir.getD d.subdir,
           branch := o.branch.getD d.branch }

/-- Modelled from the spec: `db.documentations.update(name, options)` —
merges the provided options into the row with this name. -/
def documentations_update (db : DB) (name : String) (o : UpdateOptions) :
    DB :=
  { db with
      documentations := db.documentations.map (fun d =>
        if d.name == name then merge_options d o else d) }

/-- Modelled from the spec: `db.documentations.remove(name)` — deletes the
row with this name. -/
def documentations_remove (db : DB) (name : String) : DB :=
  { db with
      documentations := db.documentations.filter (fun d => !(d.name == name)) }

/-- Modelled from the spec: `db.files.find({documentation_id})` — all file
rows of a documentation. -/
def files_find (db : DB) (documentation_id : Nat) : List File :=
  db.files.filter (fun f => f.documentation_id == documentation_id)

/-- Modelled from the spec: `db.files.create({documentation_id, path,
hash})` — inserts a file row with a fresh id and returns it. -/
def files_create (db : DB) (documentation_id : Nat) (path hash : String) :
    File × DB :=
  let f : File := ⟨db.next_id, documentation_id, path, hash⟩
  (f, { db with files := db.files ++ [f], next_id := db.next_id + 1 })

/-- Modelled from the spec: `db.files.remove({id})` — deletes the file rows
with this id. -/
def files_remove (db : DB) (id : Nat) : DB :=
  { db with files := db.files.filter (fun f => !(f.id == id)) }

/-- Modelled from the spec: `db.chunks.create({file_id, index, metadata,
content, embedding})` — inserts a chunk row with a fresh id. -/
def chunks_create (db : DB) (file_id index : Nat) (metadata content : String)
    (embedding : List Int) : DB :=
  { db with
      chunks := db.chunks ++
        [⟨db.next_id, file_id, index, metadata, content, embedding⟩],
      next_id := db.next_id + 1 }

/-- Modelled from the spec: `db.chunks.remove({file_id})` — deletes all
chunk rows of this file. -/
def chunks_remove (db : DB) (file_id : Nat) : DB :=
  { db with chunks := db.chunks.filter (fun c => !(c.file_id == file_id)) }

/-- The text embedded for a chunk draft, from `common.ts` line 14:
`const text = yaml.stringify(metadata) + "\n---\n" + content`. -/
def embed_text (env : Env) (d : ChunkDraft) : String :=
  env.yaml_stringify d.metadata ++ "\n---\n" ++ d.content

/-- The chunk-creation loop of `add_file_to_documentation` (`common.ts`
lines 12-17): for each draft in order, build the text, call the embedding
backend, and insert the chunk row with the running `index`.  A backend
error propagates (aborting the surrounding operation) with the rows
created so far left in the store.  The trace collects every text passed to
`embed`, including the one of a failing call. -/
def create_chunks (env : Env) (file_id : Nat) :
    List ChunkDraft → Nat → DB → Option String × DB × List String
  | [], _, db => (none, db, [])
  | d :: rest, index, db =>
    let text := embed_text env d
    match env.embed text with
    | .error e => (some e, db, [text])
    | .ok embedding =>
      let db1 := chunks_create db file_id index d.metadata d.content embedding
      let r := create_chunks env file_id rest (index + 1) db1
      (r.1, r.2.1, text :: r.2.2)

/-- The function `add_file_to_documentation` from
`src/commands/docs/common.ts`: chunk the on-disk file, create its file row
(with the content hash), then create one chunk row per draft with indexes
0, 1, 2, ... -/
def add_file_to_documentation (env : Env) (disk : List (String × String))
    (doc : Documentation) (filename : String) (db : DB) :
    Option String × DB × List String :=
  let content := lookup_content disk filename
  let chunks := env.get_file_chunks content
  let created := files_create db doc.id filename (hash_file env disk filename)
  create_chunks env created.1.id chunks 0 created.2

/-- The file loop of the `add` command: ingest each enumerated markdown
file in order; an error thrown by `add_file_to_documentation` propagates,
aborting the remaining files. -/
def ingest_files (env : Env) (disk : List (String × String))
    (doc : Documentation) :
    List String → DB → Option String × DB × List String
  | [], db => (none, db, [])
  | fn :: rest, db =>
    let r := add_file_to_documentation env disk doc fn db
    match r.1 with
    | some e => (some e, r.2.1, r.2.2)
    | none =>
      let r2 := ingest_files env disk doc rest r.2.1
      (r2.1, r2.2.1, r.2.2 ++ r2.2.2)

/-- The `add` command from `src/commands/docs/add.ts`: fail if the name is
taken, otherwise clone, create the documentation row, and ingest every
enumerated markdown file. -/
def add (env : Env) (name repo_url : String) (subdir branch : String)
    (db : DB) : Option String × DB × List String :=
  if documentations_has db name then
    (some ("Documentation " ++ name ++ " already exists. Use rag docs update "
      ++ name ++ " to update it."), db, [])
  else
    let disk := clone_repo env repo_url branch subdir
    let created := documentations_create db name repo_url subdir branch
    ingest_files env disk created.1 (get_md_files disk) created.2

/-- The property access `f.filename` performed by `update.ts` on a file row
(lines 35 and 44).  File rows have no `filename` column: the schema in
`src/db.ts` and the spec data model (§3) name the column `path`, and
`add_file_to_documentation` creates rows with `path: filename`.  In
JavaScript reading an absent property yields `undefined`, modelled as
`none`. -/
def File.js_filename (_f : File) : Option String := none

/-- JavaScript strict equality `a === b` between a possibly-`undefined`
string property and a string: `undefined === s` is `false`. -/
def js_strict_eq : Option String → String → Bool
  | some a, b => a == b
  | none, _ => false

/-- JavaScript `Set<string>.has(a)` for a possibly-`undefined` argument: a
set of strings never contains `undefined`. -/
def js_mem : Option String → List String → Bool
  | some a, l => l.contains a
  | none, _ => false

/-- The reconciliation loop of the `update` command (`update.ts` lines
33-43): for each enumerated on-disk file, record it as seen; look up the
matching file row (via `files.find((f) => f.filename === filename)`); if
found and the stored hash equals the on-disk hash, skip; if found with a
different hash, delete the old chunks and the old file row; in the
non-skip cases ingest the file as new.  Errors propagate, aborting the
loop.  Returns (error, store, seen filenames, embedded-text trace). -/
def update_files (env : Env) (disk : List (String × String))
    (doc : Documentation) (files : List File) :
    List String → List String → DB →
      Option String × DB × List String × List String
  | [], seen, db => (none, db, seen, [])
  | fn :: rest, seen, db =>
    let seen1 := seen ++ [fn]
    match files.find? (fun f => js_strict_eq (File.js_filename f) fn) with
    | some file =>
      if file.hash == hash_file env disk fn then
        update_files env disk doc files rest seen1 db
      else
        let db1 := files_remove (chunks_remove db file.id) file.id
        let r := add_file_to_documentation env disk doc fn db1
        match r.1 with
        | some e => (some e, r.2.1, seen1, r.2.2)
        | none =>
          let r2 := update_files env disk doc files rest seen1 r.2.1
          (r2.1, r2.2.1, r2.2.2.1, r.2.2 ++ r2.2.2.2)
    | none =>
      let r := add_file_to_documentation env disk doc fn db
      match r.1 with
      | some e => (some e, r.2.1, seen1, r.2.2)
      | none =>
        let r2 := update_files env disk doc files rest seen1 r.2.1
        (r2.1, r2.2.1, r2.2.2.1, r.2.2 ++ r2.2.2.2)

/-- The helper `delete_files_and_chunks` from `update.ts` lines 48-53: for
each given file row, delete its chunks (by `file_id`) and then the row
itself (by `id`). -/
def delete_files_and_chunks : List File → DB → DB
  | [], db => db
  | f :: rest, db =>
    delete_files_and_chunks rest (files_remove (chunks_remove db f.id) f.id)

/-- The `update` command from `src/commands/docs/update.ts`: fail if the
name is absent; merge the provided options into the documentation row;
clone using the documentation object fetched BEFORE the merge
(`clone_repo(documentation.repo_url, documentation)` on line 30 — the
pre-update `repo_url`, `branch`, `subdir`); reconcile each on-disk file;
finally delete the file rows not seen during the loop. -/
def update (env : Env) (name : String) (options : UpdateOptions) (db : DB) :
    Option String × DB × List String :=
  match documentations_get db name with
  | none =>
    (some ("Documentation " ++ name ++ " not found. Use rag docs add "
      ++ name ++ " to create it."), db, [])
  | some documentation =>
    let db1 := documentations_update db name options
    let disk := clone_repo env documentation.repo_url documentation.branch
      documentation.subdir
    let files := files_find db1 documentation.id
    let r := update_files env disk documentation files (get_md_files disk)
      [] db1
    match r.1 with
    | some e => (some e, r.2.1, r.2.2.2)
    | none =>
      let unseen :=
        files.filter (fun f => !(js_mem (File.js_filename f) r.2.2.1))
      (none, delete_files_and_chunks unseen r.2.1, r.2.2.2)

/-- The `remove` command from `src/commands/docs/remove.ts`: a no-op when
the name is absent; otherwise delete all the documentation's file rows with
their chunks, then the documentation row. -/
def remove (name : String) (db : DB) : Option String × DB :=
  match documentations_get db name with
  | none => (none, db)
  | some documentation =>
    let files := files_find db documentation.id
    let db1 := delete_files_and_chunks files db
    (none, documentations_remove db1 name)

/-- The `index` values of the chunk rows of a given file, in row order. -/
def indexes_of (l : List Chunk) (file_id : Nat) : List Nat :=
  (l.filter (fun c => c.file_id == file_id)).map Chunk.index

/-- The invariant of the spec data model (§3): for a given `file_id`, the
`index` values form the contiguous sequence 0..n-1, in order. -/
def ChunkIndexInvariant (db : DB) : Prop :=
  ∀ file_id, indexes_of db.chunks file_id =
    List.range (indexes_of db.chunks file_id).length

/-- Store well-formedness used for invariant preservation: every chunk row
references a file id below the fresh-id counter (ids are handed out by the
counter, so a freshly created file id collides with no existing chunk's
`file_id`). -/
def chunks_bounded (db : DB) : Prop :=
  ∀ c ∈ db.chunks, c.file_id < db.next_id

/-- The validated configuration of `src/config.ts`: currently just
`database_path`. -/
structure Config where
  database_path : String
deriving DecidableEq

/-- Environment of `src/config.ts`: the home directory (`os.homedir()`),
the composite `Config.parse(yaml.parse(text))` modelled as a partial parse
function (`none` models a thrown parse/validation error), and
`yaml.stringify` on configs. -/
structure ConfigEnv where
  homedir : String
  parse : String → Option Config
  stringify : Config → String

/-- The `defaults` constant of `src/config.ts`:
`database_path: path.join(os.homedir(), ".rag/db.sqlite")`. -/
def config_defaults (env : ConfigEnv) : Config :=
  ⟨env.homedir ++ "/.rag/db.sqlite"⟩

/-- Process state relevant to `config.get`: the module-level mutable
binding `let config: Config | undefined` and the content of
`~/.rag/config.yaml` on disk (`none` = the file does not exist). -/
structure ConfigState where
  cached : Option Config
  file : Option String
deriving DecidableEq

/-- The memoized `get` of `src/config.ts` (lines 15-27): if a value is
cached, return it without touching the filesystem; otherwise, if the
config file does not exist, write the defaults
(`set(defaults)` writes `yaml.stringify(Config.parse(defaults))`, and the
`defaults` constant passes validation) and cache them; otherwise parse the
file content and cache the result — a parse/validation failure throws
(`none`) and leaves the cache empty.  Returns the produced `Config` and
the new process state. -/
def config_get (env : ConfigEnv) (s : ConfigState) :
    Option Config × ConfigState :=
  match s.cached with
  | some c => (some c, s)
  | none =>
    match s.file with
    | none =>
      let d := config_defaults env
      (some d, ⟨some d, some (env.stringify d)⟩)
    | some text =>
      match env.parse text with
      | none => (none, s)
      | some c => (some c, ⟨some c, s.file⟩)

/-!
Concrete scenario instances used by the closed theorems and witnesses
below.  The hasher is instantiated with the identity function (any
deterministic fingerprint works as an equality oracle), the chunker
produces a single draft with metadata `"m"`, the serializer is the
identity, and the backend returns the vector `[1]` (or fails, for the
failure scenarios).
-/

/-- Scenario environment: one unchanged on-disk file `a.md` with content
`"hello"`. -/
def env_c1 : Env where
  checkout := fun _ _ _ => [("a.md", "hello")]
  hash := fun s => s
  get_file_chunks := fun s => [⟨"m", s⟩]
  embed := fun _ => .ok [1]
  yaml_stringify := fun s => s

/-- Store before the C1 update: documentation `demo` (id 0) tracking
`a.md` with stored hash `"hello"` = the fingerprint of the on-disk
content, and one chunk (id 2) for it. -/
def db_c1 : DB :=
  ⟨[⟨0, "demo", "r", "", "main"⟩], [⟨1, 0, "a.md", "hello"⟩],
   [⟨2, 1, 0, "m", "hello", [1]⟩], 3⟩

/-- Scenario environment: `a.md` changed on disk (content `"A2"`), `b.md`
unchanged (content `"B"`). -/
def env_c2 : Env where
  checkout := fun _ _ _ => [("a.md", "A2"), ("b.md", "B")]
  hash := fun s => s
  get_file_chunks := fun s => [⟨"m", s⟩]
  embed := fun _ => .ok [1]
  yaml_stringify := fun s => s

/-- Store before the C2 update: `a.md` stored with hash `"A1"` (stale) and
`b.md` with hash `"B"` (matching the disk), one chunk each. -/
def db_c2 : DB :=
  ⟨[⟨0, "demo", "r", "", "main"⟩],
   [⟨1, 0, "a.md", "A1"⟩, ⟨2, 0, "b.md", "B"⟩],
   [⟨3, 1, 0, "m", "A1", [1]⟩, ⟨4, 2, 0, "m", "B", [1]⟩], 5⟩

/-- Scenario environment: upstream deleted `b.md` and left `a.md`
unchanged (content `"A"`). -/
def env_c3 : Env where
  checkout := fun _ _ _ => [("a.md", "A")]
  hash := fun s => s
  get_file_chunks := fun s => [⟨"m", s⟩]
  embed := fun _ => .ok [1]
  yaml_stringify := fun s => s

/-- Store before the C3 update: `a.md` (hash `"A"`, matching the disk) and
`b.md` (no longer on disk), one chunk each. -/
def db_c3 : DB :=
  ⟨[⟨0, "demo", "r", "", "main"⟩],
   [⟨1, 0, "a.md", "A"⟩, ⟨2, 0, "b.md", "B"⟩],
   [⟨3, 1, 0, "m", "A", [1]⟩, ⟨4, 2, 0, "m", "B", [1]⟩], 5⟩

/-- Scenario environment for the failing Add: the embedding backend always
fails (retries exhausted). -/
def env_c4 : Env where
  checkout := fun _ _ _ => [("a.md", "A")]
  hash := fun s => s
  get_file_chunks := fun s => [⟨"m", s⟩]
  embed := fun _ => .error "embed failed"
  yaml_stringify := fun s => s

/-- The empty store. -/
def db_c4 : DB := ⟨[], [], [], 0⟩

/-- A plain scenario environment (never consulted by the C5 theorem, which
fails before cloning). -/
def env_c5 : Env where
  checkout := fun _ _ _ => []
  hash := fun s => s
  get_file_chunks := fun s => [⟨"m", s⟩]
  embed := fun _ => .ok [1]
  yaml_stringify := fun s => s

/-- Store already containing a documentation named `demo`. -/
def db_c5 : DB := ⟨[⟨0, "demo", "r", "", "main"⟩], [], [], 1⟩

/-- Scenario environment whose checkout distinguishes repository urls: url
`r2` holds `new.md`, every other url holds `old.md`. -/
def env_c6 : Env where
  checkout := fun r _ _ =>
    if r == "r2" then [("new.md", "N")] else [("old.md", "O")]
  hash := fun s => s
  get_file_chunks := fun s => [⟨"m", s⟩]
  embed := fun _ => .ok [1]
  yaml_stringify := fun s => s

/-- Store before the C6 update: documentation `demo` currently points at
repository `r1`. -/
def db_c6 : DB := ⟨[⟨0, "demo", "r1", "", "main"⟩], [], [], 1⟩

/-- Store used by the C7 witness: one documentation with one file and one
chunk. -/
def db_c7 : DB :=
  ⟨[⟨0, "demo", "r", "", "main"⟩], [⟨1, 0, "a.md", "h"⟩],
   [⟨2, 1, 0, "m", "x", [1]⟩], 3⟩

/-- Scenario environment for the C8 witness. -/
def env_c8 : Env where
  checkout := fun _ _ _ => [("a.md", "hello")]
  hash := fun s => s
  get_file_chunks := fun s => [⟨"m", s⟩]
  embed := fun _ => .ok [1]
  yaml_stringify := fun s => s

/-- The empty store (C8 witness). -/
def db_c8 : DB := ⟨[], [], [], 0⟩

/-- Scenario environment for the C9 witness. -/
def env_c9 : Env where
  checkout := fun _ _ _ => [("a.md", "hello")]
  hash := fun s => s
  get_file_chunks := fun s => [⟨"m", s⟩]
  embed := fun _ => .ok [1]
  yaml_stringify := fun s => s

/-- Store for the C9 witness: the documentation exists but has no file
rows yet, so the update ingests `a.md` and persists one chunk. -/
def db_c9 : DB := ⟨[⟨0, "demo", "r", "", "main"⟩], [], [], 1⟩

/-- The chunk persisted by the C9 witness update. -/
def chunk_c9 : Chunk := ⟨2, 1, 0, "m", "hello", [1]⟩

/-- Configuration environment for the C10 witness: the parse function
never succeeds (it is not consulted on the paths exercised). -/
def env_c10 : ConfigEnv where
  homedir := "/home/u"
  parse := fun _ => none
  stringify := fun _ => "database_path yaml"

/-- C1.  The claim states that an Update skips every on-disk file whose
path matches a File row with an equal stored hash (File row and Chunks
unchanged, no re-embedding, zero chunks re-created on an idempotent
re-run).  The code violates this: the lookup on `update.ts` line 35 reads
`f.filename`, a property File rows do not have (rows are created with
`path`, the column of the schema in `src/db.ts`), so it never matches and
every on-disk file is re-ingested; at the end of the loop the original
rows are deleted as unseen (`seen_filenames.has(f.filename)` is likewise
always false).  Here the stored hash of `a.md` equals the on-disk
fingerprint, yet the update deletes File row 1 and Chunk row 2, creates a
fresh File row 3 and Chunk row 4, and calls the embedding backend once. -/
theorem update_reingests_unchanged_file_bug :
    hash_file env_c1 (clone_repo env_c1 "r" "main" "") "a.md" = "hello" ∧
    db_c1.files = [⟨1, 0, "a.md", "hello"⟩] ∧
    (update env_c1 "demo" ⟨none, none, none⟩ db_c1).1 = none ∧
    (update env_c1 "demo" ⟨none, none, none⟩ db_c1).2.1.files =
      [⟨3, 0, "a.md", "hello"⟩] ∧
    (update env_c1 "demo" ⟨none, none, none⟩ db_c1).2.1.chunks =
      [⟨4, 3, 0, "m", "hello", [1]⟩] ∧
    (update env_c1 "demo" ⟨none, none, none⟩ db_c1).2.2 =
      ["m" ++ "\n---\n" ++ "hello"] :=
  ⟨rfl, rfl, rfl, rfl, rfl, rfl⟩

/-- C2.  The claim states that when exactly one tracked file changed, only
that file's Chunks are deleted and recreated and every other file's rows
are untouched.  In this scenario `a.md` changed (stored hash `"A1"`,
on-disk fingerprint `"A2"`) while `b.md` is unchanged (`"B"` = `"B"`);
because of the `f.filename` lookup bug the update nevertheless replaces
BOTH files: the untouched-by-rights File row 2 and Chunk row 4 of `b.md`
are deleted and recreated as rows 7 and 8. -/
theorem update_touches_unchanged_files_bug :
    hash_file env_c2 (clone_repo env_c2 "r" "main" "") "b.md" = "B" ∧
    db_c2.files = [⟨1, 0, "a.md", "A1"⟩, ⟨2, 0, "b.md", "B"⟩] ∧
    (update env_c2 "demo" ⟨none, none, none⟩ db_c2).2.1.files =
      [⟨5, 0, "a.md", "A2"⟩, ⟨7, 0, "b.md", "B"⟩] ∧
    (update env_c2 "demo" ⟨none, none, none⟩ db_c2).2.1.chunks =
      [⟨6, 5, 0, "m", "A2", [1]⟩, ⟨8, 7, 0, "m", "B", [1]⟩] :=
  ⟨rfl, rfl, rfl, rfl⟩

/-- C3.  The claim states that after an Update, File rows whose paths are
gone from disk are deleted with their Chunks (which holds), while a File
row still on disk with unchanged content keeps its existing Chunk rows
with the same ids (which fails).  Upstream deleted `b.md` and left `a.md`
unchanged: after the update `b.md`'s rows (File 2, Chunk 4) are indeed
gone, but `a.md`'s File row 1 and Chunk row 3 were also deleted and
re-created as rows 5 and 6 — the chunk ids are not preserved. -/
theorem update_discards_chunk_ids_of_unchanged_file_bug :
    hash_file env_c3 (clone_repo env_c3 "r" "main" "") "a.md" = "A" ∧
    db_c3.files = [⟨1, 0, "a.md", "A"⟩, ⟨2, 0, "b.md", "B"⟩] ∧
    db_c3.chunks = [⟨3, 1, 0, "m", "A", [1]⟩, ⟨4, 2, 0, "m", "B", [1]⟩] ∧
    (update env_c3 "demo" ⟨none, none, none⟩ db_c3).2.1.files =
      [⟨5, 0, "a.md", "A"⟩] ∧
    (update env_c3 "demo" ⟨none, none, none⟩ db_c3).2.1.chunks =
      [⟨6, 5, 0, "m", "A", [1]⟩] :=
  ⟨rfl, rfl, rfl, rfl, rfl⟩

/-- C4 counterexample.  The claim states that when ingesting a file fails
during an Add, the store is left in its pre-Add state (in particular no
Documentation row for the name persists).  With a failing embedding
backend, `add` on the empty store throws, yet the Documentation row
`demo` and the File row for `a.md` remain: `add.ts` creates the
Documentation row before ingesting files and performs no rollback. -/
theorem add_failure_leaves_documentation_row :
    (add env_c4 "demo" "r" "" "main" db_c4).1 = some "embed failed" ∧
    (add env_c4 "demo" "r" "" "main" db_c4).2.1.documentations =
      [⟨0, "demo", "r", "", "main"⟩] ∧
    (add env_c4 "demo" "r" "" "main" db_c4).2.1.files =
      [⟨1, 0, "a.md", "A"⟩] :=
  ⟨rfl, rfl, rfl⟩

/-- C6.  The claim states that Update checks out the tree identified by
the MERGED `repo_url`/`branch`/`subdir`.  The code merges the options into
the Documentation row but then calls
`clone_repo(documentation.repo_url, documentation)` (`update.ts` line 30)
on the documentation object fetched BEFORE the merge.  Here the row is
updated to `repo_url = "r2"` (whose tree holds `new.md`), yet the file
ingested comes from the pre-update `r1` tree (`old.md`). -/
theorem update_checks_out_pre_update_tree_bug :
    clone_repo env_c6 "r2" "main" "" = [("new.md", "N")] ∧
    (update env_c6 "demo" ⟨some "r2", none, none⟩ db_c6).2.1.documentations =
      [⟨0, "demo", "r2", "", "main"⟩] ∧
    (update env_c6 "demo" ⟨some "r2", none, none⟩ db_c6).2.1.files.map
      File.path = ["old.md"] :=
  ⟨rfl, rfl, rfl⟩

/-- The chunk-creation loop never touches the documentations table. -/
theorem create_chunks_docs (env : Env) (fid : Nat) (ds : List ChunkDraft) :
    ∀ (i : Nat) (db : DB),
      (create_chunks env fid ds i db).2.1.documentations =
        db.documentations := by
  induction ds with
  | nil => intro i db; rfl
  | cons d rest ih =>
    intro i db
    simp only [create_chunks]
    cases h : env.embed (embed_text env d) with
    | error e => rfl
    | ok v => simpa [chunks_create] using ih (i + 1) _

/-- The chunk-creation loop never touches the files table. -/
theorem create_chunks_files (env : Env) (fid : Nat) (ds : List ChunkDraft) :
    ∀ (i : Nat) (db : DB),
      (create_chunks env fid ds i db).2.1.files = db.files := by
  induction ds with
  | nil => intro i db; rfl
  | cons d rest ih =>
    intro i db
    simp only [create_chunks]
    cases h : env.embed (embed_text env d) with
    | error e => rfl
    | ok v => simpa [chunks_create] using ih (i + 1) _

/-- The chunk-creation loop only grows the fresh-id counter. -/
theorem create_chunks_next_le (env : Env) (fid : Nat) (ds : List ChunkDraft) :
    ∀ (i : Nat) (db : DB),
      db.next_id ≤ (create_chunks env fid ds i db).2.1.next_id := by
  induction ds with
  | nil => intro i db; exact Nat.le_refl _
  | cons d rest ih =>
    intro i db
    simp only [create_chunks]
    cases h : env.embed (embed_text env d) with
    | error e => exact Nat.le_refl _
    | ok v =>
      have h1 := ih (i + 1) (chunks_create db fid i d.metadata d.content v)
      exact Nat.le_trans (Nat.le_succ _) h1

/-- Shape of the rows appended by the chunk-creation loop: the new chunk
rows all belong to the given file, carry the consecutive indexes starting
at `i`, mirror the drafts' metadata and content in order, each had its
embedded text sent to the backend, and on success one row per draft was
created. -/
theorem create_chunks_chunks (env : Env) (fid : Nat) (ds : List ChunkDraft) :
    ∀ (i : Nat) (db : DB), ∃ new : List Chunk,
      (create_chunks env fid ds i db).2.1.chunks = db.chunks ++ new ∧
      new.map Chunk.index = List.range' i new.length ∧
      (∀ c ∈ new, c.file_id = fid) ∧
      (∀ c ∈ new, embed_text env ⟨c.metadata, c.content⟩ ∈
        (create_chunks env fid ds i db).2.2) ∧
      new.map (fun c => (c.metadata, c.content)) =
        (ds.take new.length).map (fun d => (d.metadata, d.content)) ∧
      ((create_chunks env fid ds i db).1 = none →
        new.length = ds.length) := by
  induction ds with
  | nil =>
    intro i db
    exact ⟨[], by simp [create_chunks], by simp, by simp, by simp, by simp,
      by simp [create_chunks]⟩
  | cons d rest ih =>
    intro i db
    simp only [create_chunks]
    cases h : env.embed (embed_text env d) with
    | error e =>
      refine ⟨[], by simp, by simp, by simp, by simp, by simp, ?_⟩
      intro hc
      exact absurd hc (by simp)
    | ok v =>
      obtain ⟨new1, h1, h2, h3, h4, h5, h6⟩ :=
        ih (i + 1) (chunks_create db fid i d.metadata d.content v)
      refine ⟨⟨db.next_id, fid, i, d.metadata, d.content, v⟩ :: new1,
        ?_, ?_, ?_, ?_, ?_, ?_⟩
      · rw [h1]; simp [chunks_create]
      · simp only [List.map_cons, List.length_cons, h2, List.range'_succ]
      · intro c hc
        rcases List.mem_cons.mp hc with rfl | hc
        · rfl
        · exact h3 c hc
      · intro c hc
        rcases List.mem_cons.mp hc with rfl | hc
        · exact List.mem_cons_self _ _
        · exact List.mem_cons_of_mem _ (h4 c hc)
      · simp only [List.map_cons, List.length_cons, List.take_succ_cons, h5]
      · intro hc
        simp only [List.length_cons, h6 hc, List.length_cons]

/-- Unfolding of `add_file_to_documentation` into its parts: the file row
is created with the fresh id and the on-disk hash, and the chunk loop runs
on the chunker's drafts from index 0. -/
theorem add_file_eq (env : Env) (disk : List (String × String))
    (doc : Documentation) (fn : String) (db : DB) :
    add_file_to_documentation env disk doc fn db =
      create_chunks env db.next_id
        (env.get_file_chunks (lookup_content disk fn)) 0
        { db with
            files := db.files ++
              [⟨db.next_id, doc.id, fn, hash_file env disk fn⟩],
            next_id := db.next_id + 1 } := rfl

/-- Ingesting a file never touches the documentations table. -/
theorem add_file_docs (env : Env) (disk : List (String × String))
    (doc : Documentation) (fn : String) (db : DB) :
    (add_file_to_documentation env disk doc fn db).2.1.documentations =
      db.documentations := by
  rw [add_file_eq, create_chunks_docs]

/-- Ingesting a file appends exactly one file row, carrying the fresh id,
the relative path, and the on-disk content hash. -/
theorem add_file_files (env : Env) (disk : List (String × String))
    (doc : Documentation) (fn : String) (db : DB) :
    (add_file_to_documentation env disk doc fn db).2.1.files =
      db.files ++ [⟨db.next_id, doc.id, fn, hash_file env disk fn⟩] := by
  rw [add_file_eq, create_chunks_files]

/-- Ingesting a file strictly grows the fresh-id counter. -/
theorem add_file_next (env : Env) (disk : List (String × String))
    (doc : Documentation) (fn : String) (db : DB) :
    db.next_id < (add_file_to_documentation env disk doc fn db).2.1.next_id := by
  rw [add_file_eq]
  exact Nat.lt_of_lt_of_le (Nat.lt_succ_self _)
    (create_chunks_next_le env db.next_id
      (env.get_file_chunks (lookup_content disk fn)) 0
      { db with
          files := db.files ++
            [⟨db.next_id, doc.id, fn, hash_file env disk fn⟩],
          next_id := db.next_id + 1 })

/-- Shape of the chunk rows appended by ingesting one file: they all
reference the freshly created file row, their indexes are 0..n-1 in order,
they mirror the chunker's drafts in order, each had its embedded text sent
to the backend, and on success there is one row per draft. -/
theorem add_file_chunks (env : Env) (disk : List (String × String))
    (doc : Documentation) (fn : String) (db : DB) :
    ∃ new : List Chunk,
      (add_file_to_documentation env disk doc fn db).2.1.chunks =
        db.chunks ++ new ∧
      new.map Chunk.index = List.range new.length ∧
      (∀ c ∈ new, c.file_id = db.next_id) ∧
      (∀ c ∈ new, embed_text env ⟨c.metadata, c.content⟩ ∈
        (add_file_to_documentation env disk doc fn db).2.2) ∧
      new.map (fun c => (c.metadata, c.content)) =
        ((env.get_file_chunks (lookup_content disk fn)).take new.length).map
          (fun d => (d.metadata, d.content)) ∧
      ((add_file_to_documentation env disk doc fn db).1 = none →
        new.length = (env.get_file_chunks (lookup_content disk fn)).length) := by
  rw [add_file_eq]
  obtain ⟨new, h1, h2, h3, h4, h5, h6⟩ :=
    create_chunks_chunks env db.next_id
      (env.get_file_chunks (lookup_content disk fn)) 0
      { db with
          files := db.files ++
            [⟨db.next_id, doc.id, fn, hash_file env disk fn⟩],
          next_id := db.next_id + 1 }
  exact ⟨new, h1, by rw [h2, List.range_eq_range'], h3, h4, h5, h6⟩

/-- The lookup of `update.ts` line 35 never succeeds: it compares the
absent property `f.filename` (JavaScript `undefined`) against a string. -/
theorem js_find_none (files : List File) (fn : String) :
    files.find? (fun f => js_strict_eq (File.js_filename f) fn) = none := by
  apply List.find?_eq_none.mpr
  intro f _
  simp [js_strict_eq, File.js_filename]

/-- The membership test of `update.ts` line 44 never succeeds: a set of
strings does not contain `undefined`. -/
theorem js_mem_false (f : File) (seen : List String) :
    js_mem (File.js_filename f) seen = false := rfl

/-- Splitting the index list of a file over an append of chunk rows. -/
theorem indexes_of_append (l1 l2 : List Chunk) (fid : Nat) :
    indexes_of (l1 ++ l2) fid = indexes_of l1 fid ++ indexes_of l2 fid := by
  simp [indexes_of, List.filter_append]

/-- A chunk list with no row of the file contributes no indexes. -/
theorem indexes_of_eq_nil_of_ne (l : List Chunk) (fid : Nat)
    (h : ∀ c ∈ l, c.file_id ≠ fid) : indexes_of l fid = [] := by
  induction l with
  | nil => rfl
  | cons c rest ih =>
    have hc : (c.file_id == fid) = false := by
      simp [h c (List.mem_cons_self c rest)]
    have ih1 := ih (fun x hx => h x (List.mem_cons_of_mem _ hx))
    simpa [indexes_of, List.filter_cons, hc] using ih1

/-- A chunk list consisting only of rows of the file contributes all its
indexes, in order. -/
theorem indexes_of_eq_map_of_all (l : List Chunk) (fid : Nat)
    (h : ∀ c ∈ l, c.file_id = fid) :
    indexes_of l fid = l.map Chunk.index := by
  induction l with
  | nil => rfl
  | cons c rest ih =>
    have hc : (c.file_id == fid) = true := by
      simp [h c (List.mem_cons_self c rest)]
    have ih1 := ih (fun x hx => h x (List.mem_cons_of_mem _ hx))
    simpa [indexes_of, List.filter_cons, hc] using ih1

/-- Effect of `db.chunks.remove({file_id: x})` on the index list of a
file: the removed file's indexes become empty, every other file's indexes
are untouched. -/
theorem indexes_of_filter_out (l : List Chunk) (x fid : Nat) :
    indexes_of (l.filter (fun c => !(c.file_id == x))) fid =
      if fid = x then [] else indexes_of l fid := by
  by_cases hfx : fid = x
  · subst hfx
    rw [if_pos rfl]
    apply indexes_of_eq_nil_of_ne
    intro c hc
    have h2 := (List.mem_filter.mp hc).2
    simpa using h2
  · rw [if_neg hfx]
    induction l with
    | nil => rfl
    | cons c rest ih =>
      by_cases hcx : c.file_id = x
      · have h1 : (c.file_id == x) = true := by simp [hcx]
        have h2 : (c.file_id == fid) = false := by
          simp [hcx, Ne.symm hfx]
        simpa [indexes_of, List.filter_cons, h1, h2] using ih
      · have h1 : (c.file_id == x) = false := by simp [hcx]
        by_cases hcf : c.file_id = fid
        · have h2 : (c.file_id == fid) = true := by simp [hcf]
          simpa [indexes_of, List.filter_cons, h1, h2] using ih
        · have h2 : (c.file_id == fid) = false := by simp [hcf]
          simpa [indexes_of, List.filter_cons, h1, h2] using ih

/-- A bounded chunk list contributes no indexes at the fresh id. -/
theorem indexes_of_nil_of_bounded (l : List Chunk) (n : Nat)
    (hb : ∀ c ∈ l, c.file_id < n) : indexes_of l n = [] :=
  indexes_of_eq_nil_of_ne l n (fun c hc => Nat.ne_of_lt (hb c hc))

/-- Ingesting one file preserves boundedness and the chunk-index
invariant: the new rows all use the fresh file id (which no existing chunk
references) and carry indexes 0..n-1 in order. -/
theorem add_file_preserves (env : Env) (disk : List (String × String))
    (doc : Documentation) (fn : String) (db : DB)
    (hb : chunks_bounded db) (hinv : ChunkIndexInvariant db) :
    chunks_bounded (add_file_to_documentation env disk doc fn db).2.1 ∧
    ChunkIndexInvariant (add_file_to_documentation env disk doc fn db).2.1 := by
  obtain ⟨new, hchunks, hidx, hfid, _, _, _⟩ :=
    add_file_chunks env disk doc fn db
  have hnext := add_file_next env disk doc fn db
  constructor
  · intro c hc
    rw [hchunks] at hc
    rcases List.mem_append.mp hc with h | h
    · exact Nat.lt_trans (hb c h) hnext
    · rw [hfid c h]; exact hnext
  · intro fid
    rw [hchunks, indexes_of_append]
    by_cases hf : fid = db.next_id
    · subst hf
      rw [indexes_of_nil_of_bounded db.chunks db.next_id hb,
        indexes_of_eq_map_of_all new db.next_id hfid]
      simp [hidx]
    · rw [indexes_of_eq_nil_of_ne new fid
        (fun c hc => by rw [hfid c hc]; exact fun e => hf e.symm)]
      simp only [List.append_nil]
      exact hinv fid

/-- Removing a file's chunks preserves boundedness and the chunk-index
invariant. -/
theorem chunks_remove_preserves (db : DB) (x : Nat)
    (hb : chunks_bounded db) (hinv : ChunkIndexInvariant db) :
    chunks_bounded (chunks_remove db x) ∧
    ChunkIndexInvariant (chunks_remove db x) := by
  constructor
  · intro c hc
    exact hb c (List.mem_filter.mp hc).1
  · intro fid
    have hrw : (chunks_remove db x).chunks =
        db.chunks.filter (fun c => !(c.file_id == x)) := rfl
    rw [hrw, indexes_of_filter_out]
    by_cases hfx : fid = x
    · simp [hfx]
    · rw [if_neg hfx]
      exact hinv fid

/-- Characterization of `delete_files_and_chunks`: documentations and the
id counter are untouched, and exactly the rows referencing one of the
given file ids are removed from the files and chunks tables. -/
theorem delete_files_and_chunks_spec (fs : List File) : ∀ db : DB,
    (delete_files_and_chunks fs db).documentations = db.documentations ∧
    (delete_files_and_chunks fs db).next_id = db.next_id ∧
    (delete_files_and_chunks fs db).files =
      db.files.filter (fun g => !(fs.any (fun f => g.id == f.id))) ∧
    (delete_files_and_chunks fs db).chunks =
      db.chunks.filter (fun c => !(fs.any (fun f => c.file_id == f.id))) := by
  induction fs with
  | nil =>
    intro db
    refine ⟨rfl, rfl, ?_, ?_⟩ <;> simp [delete_files_and_chunks]
  | cons f rest ih =>
    intro db
    simp only [delete_files_and_chunks]
    obtain ⟨h1, h2, h3, h4⟩ := ih (files_remove (chunks_remove db f.id) f.id)
    refine ⟨h1, h2, ?_, ?_⟩
    · rw [h3]
      show (db.files.filter (fun g => !(g.id == f.id))).filter
          (fun g => !(rest.any (fun f2 => g.id == f2.id))) = _
      rw [List.filter_filter]
      apply List.filter_congr
      intro g _
      simp only [List.any_cons, Bool.not_or]
      exact Bool.and_comm _ _
    · rw [h4]
      show (db.chunks.filter (fun c => !(c.file_id == f.id))).filter
          (fun c => !(rest.any (fun f2 => c.file_id == f2.id))) = _
      rw [List.filter_filter]
      apply List.filter_congr
      intro c _
      simp only [List.any_cons, Bool.not_or]
      exact Bool.and_comm _ _

/-- Deleting files with their chunks preserves boundedness and the
chunk-index invariant. -/
theorem delete_preserves (fs : List File) : ∀ db : DB,
    chunks_bounded db → ChunkIndexInvariant db →
    chunks_bounded (delete_files_and_chunks fs db) ∧
    ChunkIndexInvariant (delete_files_and_chunks fs db) := by
  induction fs with
  | nil => intro db hb hinv; exact ⟨hb, hinv⟩
  | cons f rest ih =>
    intro db hb hinv
    obtain ⟨hb1, hinv1⟩ := chunks_remove_preserves db f.id hb hinv
    simp only [delete_files_and_chunks]
    exact ih _ hb1 hinv1

/-- The file loop of `add` never touches the documentations table. -/
theorem ingest_files_docs (env : Env) (disk : List (String × String))
    (doc : Documentation) :
    ∀ (fns : List String) (db : DB),
      (ingest_files env disk doc fns db).2.1.documentations =
        db.documentations := by
  intro fns
  induction fns with
  | nil => intro db; rfl
  | cons fn rest ih =>
    intro db
    simp only [ingest_files]
    cases hr : (add_file_to_documentation env disk doc fn db).1 with
    | some e => exact add_file_docs env disk doc fn db
    | none =>
      show (ingest_files env disk doc rest
          (add_file_to_documentation env disk doc fn db).2.1).2.1.documentations =
        db.documentations
      rw [ih, add_file_docs]

/-- Every chunk row present after ingesting one file either predates the
call or had its embedded text sent to the backend during the call. -/
theorem add_file_chunk_source (env : Env) (disk : List (String × String))
    (doc : Documentation) (fn : String) (db : DB) :
    ∀ c ∈ (add_file_to_documentation env disk doc fn db).2.1.chunks,
      c ∈ db.chunks ∨ embed_text env ⟨c.metadata, c.content⟩ ∈
        (add_file_to_documentation env disk doc fn db).2.2 := by
  obtain ⟨new, hchunks, _, _, hmem, _, _⟩ := add_file_chunks env disk doc fn db
  intro c hc
  rw [hchunks] at hc
  rcases List.mem_append.mp hc with h | h
  · exact Or.inl h
  · exact Or.inr (hmem c h)

/-- Every chunk row present after the `add` file loop either predates the
loop or had its embedded text sent to the backend during the loop. -/
theorem ingest_files_chunk_source (env : Env) (disk : List (String × String))
    (doc : Documentation) :
    ∀ (fns : List String) (db : DB),
      ∀ c ∈ (ingest_files env disk doc fns db).2.1.chunks,
        c ∈ db.chunks ∨ embed_text env ⟨c.metadata, c.content⟩ ∈
          (ingest_files env disk doc fns db).2.2 := by
  intro fns
  induction fns with
  | nil => intro db c hc; exact Or.inl hc
  | cons fn rest ih =>
    intro db
    simp only [ingest_files]
    cases hr : (add_file_to_documentation env disk doc fn db).1 with
    | some e =>
      intro c hc
      exact add_file_chunk_source env disk doc fn db c hc
    | none =>
      intro c hc
      rcases ih (add_file_to_documentation env disk doc fn db).2.1 c hc with h | h
      · rcases add_file_chunk_source env disk doc fn db c h with h2 | h2
        · exact Or.inl h2
        · exact Or.inr (List.mem_append_left _ h2)
      · exact Or.inr (List.mem_append_right _ h)

/-- The `add` file loop preserves boundedness and the chunk-index
invariant. -/
theorem ingest_files_preserves (env : Env) (disk : List (String × String))
    (doc : Documentation) :
    ∀ (fns : List String) (db : DB),
      chunks_bounded db → ChunkIndexInvariant db →
      chunks_bounded (ingest_files env disk doc fns db).2.1 ∧
      ChunkIndexInvariant (ingest_files env disk doc fns db).2.1 := by
  intro fns
  induction fns with
  | nil => intro db hb hinv; exact ⟨hb, hinv⟩
  | cons fn rest ih =>
    intro db hb hinv
    obtain ⟨hb1, hinv1⟩ := add_file_preserves env disk doc fn db hb hinv
    simp only [ingest_files]
    cases hr : (add_file_to_documentation env disk doc fn db).1 with
    | some e => exact ⟨hb1, hinv1⟩
    | none => exact ih _ hb1 hinv1

/-- Step equation of the reconciliation loop: since the row lookup of
`update.ts` line 35 never matches (`js_find_none`), each on-disk file is
unconditionally re-ingested. -/
theorem update_files_cons (env : Env) (disk : List (String × String))
    (doc : Documentation) (files : List File) (fn : String)
    (rest seen : List String) (db : DB) :
    update_files env disk doc files (fn :: rest) seen db =
      match (add_file_to_documentation env disk doc fn db).1 with
      | some e => (some e, (add_file_to_documentation env disk doc fn db).2.1,
          seen ++ [fn], (add_file_to_documentation env disk doc fn db).2.2)
      | none =>
        ((update_files env disk doc files rest (seen ++ [fn])
            (add_file_to_documentation env disk doc fn db).2.1).1,
         (update_files env disk doc files rest (seen ++ [fn])
            (add_file_to_documentation env disk doc fn db).2.1).2.1,
         (update_files env disk doc files rest (seen ++ [fn])
            (add_file_to_documentation env disk doc fn db).2.1).2.2.1,
         (add_file_to_documentation env disk doc fn db).2.2 ++
           (update_files env disk doc files rest (seen ++ [fn])
              (add_file_to_documentation env disk doc fn db).2.1).2.2.2) := by
  simp only [update_files, js_find_none]

/-- Every chunk row present after the reconciliation loop either predates
the loop or had its embedded text sent to the backend during the loop. -/
theorem update_files_chunk_source (env : Env) (disk : List (String × String))
    (doc : Documentation) (files : List File) :
    ∀ (fns seen : List String) (db : DB),
      ∀ c ∈ (update_files env disk doc files fns seen db).2.1.chunks,
        c ∈ db.chunks ∨ embed_text env ⟨c.metadata, c.content⟩ ∈
          (update_files env disk doc files fns seen db).2.2.2 := by
  intro fns
  induction fns with
  | nil => intro seen db c hc; exact Or.inl hc
  | cons fn rest ih =>
    intro seen db
    rw [update_files_cons]
    cases hr : (add_file_to_documentation env disk doc fn db).1 with
    | some e =>
      intro c hc
      exact add_file_chunk_source env disk doc fn db c hc
    | none =>
      intro c hc
      rcases ih (seen ++ [fn])
          (add_file_to_documentation env disk doc fn db).2.1 c hc with h | h
      · rcases add_file_chunk_source env disk doc fn db c h with h2 | h2
        · exact Or.inl h2
        · exact Or.inr (List.mem_append_left _ h2)
      · exact Or.inr (List.mem_append_right _ h)

/-- The reconciliation loop preserves boundedness and the chunk-index
invariant. -/
theorem update_files_preserves (env : Env) (disk : List (String × String))
    (doc : Documentation) (files : List File) :
    ∀ (fns seen : List String) (db : DB),
      chunks_bounded db → ChunkIndexInvariant db →
      chunks_bounded (update_files env disk doc files fns seen db).2.1 ∧
      ChunkIndexInvariant (update_files env disk doc files fns seen db).2.1 := by
  intro fns
  induction fns with
  | nil => intro seen db hb hinv; exact ⟨hb, hinv⟩
  | cons fn rest ih =>
    intro seen db hb hinv
    obtain ⟨hb1, hinv1⟩ := add_file_preserves env disk doc fn db hb hinv
    rw [update_files_cons]
    cases hr : (add_file_to_documentation env disk doc fn db).1 with
    | some e => exact ⟨hb1, hinv1⟩
    | none => exact ih (seen ++ [fn]) _ hb1 hinv1

/-- The `add` operation preserves boundedness and the chunk-index
invariant. -/
theorem add_preserves (env : Env) (name repo_url subdir branch : String)
    (db : DB) (hb : chunks_bounded db) (hinv : ChunkIndexInvariant db) :
    chunks_bounded (add env name repo_url subdir branch db).2.1 ∧
    ChunkIndexInvariant (add env name repo_url subdir branch db).2.1 := by
  by_cases h : documentations_has db name = true
  · simp only [add]
    rw [if_pos h]
    exact ⟨hb, hinv⟩
  · simp only [add]
    rw [if_neg h]
    have hb1 : chunks_bounded
        (documentations_create db name repo_url subdir branch).2 := by
      intro c hc
      exact Nat.lt_trans (hb c hc) (Nat.lt_succ_self _)
    have hinv1 : ChunkIndexInvariant
        (documentations_create db name repo_url subdir branch).2 := hinv
    exact ingest_files_preserves env _ _ _ _ hb1 hinv1

/-- The `update` operation preserves boundedness and the chunk-index
invariant. -/
theorem update_preserves (env : Env) (name : String)
    (options : UpdateOptions) (db : DB)
    (hb : chunks_bounded db) (hinv : ChunkIndexInvariant db) :
    chunks_bounded (update env name options db).2.1 ∧
    ChunkIndexInvariant (update env name options db).2.1 := by
  cases hd : documentations_get db name with
  | none =>
    simp only [update, hd]
    exact ⟨hb, hinv⟩
  | some documentation =>
    simp only [update, hd]
    have hb1 : chunks_bounded (documentations_update db name options) := hb
    have hinv1 : ChunkIndexInvariant (documentations_update db name options) :=
      hinv
    obtain ⟨hb2, hinv2⟩ := update_files_preserves env
      (clone_repo env documentation.repo_url documentation.branch
        documentation.subdir)
      documentation
      (files_find (documentations_update db name options) documentation.id)
      (get_md_files (clone_repo env documentation.repo_url
        documentation.branch documentation.subdir))
      [] (documentations_update db name options) hb1 hinv1
    rcases hU : update_files env
      (clone_repo env documentation.repo_url documentation.branch
        documentation.subdir)
      documentation
      (files_find (documentations_update db name options) documentation.id)
      (get_md_files (clone_repo env documentation.repo_url
        documentation.branch documentation.subdir))
      [] (documentations_update db name options) with ⟨err, db2, seen, ts⟩
    rw [hU] at hb2 hinv2
    cases err with
    | some e => exact ⟨hb2, hinv2⟩
    | none => exact delete_preserves _ db2 hb2 hinv2

/-- The `remove` operation preserves boundedness and the chunk-index
invariant. -/
theorem remove_op_preserves (name : String) (db : DB)
    (hb : chunks_bounded db) (hinv : ChunkIndexInvariant db) :
    chunks_bounded (remove name db).2 ∧
    ChunkIndexInvariant (remove name db).2 := by
  cases hd : documentations_get db name with
  | none =>
    simp only [remove, hd]
    exact ⟨hb, hinv⟩
  | some documentation =>
    simp only [remove, hd]
    exact delete_preserves (files_find db documentation.id) db hb hinv

/-- The documentation row created by a fresh `add` persists in the
resulting store whatever happens during file ingestion. -/
theorem add_docs_of_fresh (env : Env) (name repo_url subdir branch : String)
    (db : DB) (h : documentations_has db name = false) :
    (add env name repo_url subdir branch db).2.1.documentations =
      db.documentations ++ [⟨db.next_id, name, repo_url, subdir, branch⟩] := by
  simp only [add]
  rw [if_neg (by simp [h])]
  rw [ingest_files_docs]
  rfl

/-- C4 amended.  When ingesting a file fails during an Add of a fresh
name, the whole Add aborts (the error is reported and no further files
are ingested), but the store is NOT rolled back: the Documentation row
created by this Add persists (as do the File and Chunk rows created
before the failure) — `add.ts` creates the row before the file loop and
performs no rollback. -/
theorem add_aborts_without_rollback (env : Env)
    (name repo_url subdir branch : String) (db : DB) (e : String)
    (hfresh : documentations_has db name = false)
    (herr : (add env name repo_url subdir branch db).1 = some e) :
    (add env name repo_url subdir branch db).1 = some e ∧
    (add env name repo_url subdir branch db).2.1.documentations =
      db.documentations ++ [⟨db.next_id, name, repo_url, subdir, branch⟩] :=
  ⟨herr, add_docs_of_fresh env name repo_url subdir branch db hfresh⟩

/-- Witness for the amended C4: on the empty store with a failing
embedding backend, the Add reports the backend error and the `demo`
Documentation row persists. -/
theorem add_aborts_without_rollback_witness :
    (add env_c4 "demo" "r" "" "main" db_c4).1 = some "embed failed" ∧
    (add env_c4 "demo" "r" "" "main" db_c4).2.1.documentations =
      db_c4.documentations ++ [⟨0, "demo", "r", "", "main"⟩] :=
  add_aborts_without_rollback env_c4 "demo" "r" "" "main" db_c4
    "embed failed" rfl rfl

/-- C5.  Adding a documentation whose name is already present fails with
the already-exists error before any mutation: the returned store is
exactly the input store (Documentation, File and Chunk rows all
unmodified) and no embedding call is made. -/
theorem add_existing_name_fails_and_preserves_store (env : Env)
    (name repo_url subdir branch : String) (db : DB)
    (h : documentations_has db name = true) :
    add env name repo_url subdir branch db =
      (some ("Documentation " ++ name ++
        " already exists. Use rag docs update " ++ name ++
        " to update it."), db, []) := by
  simp only [add]
  rw [if_pos h]

/-- Witness for C5: adding `demo` a second time fails and leaves the
store untouched. -/
theorem add_existing_name_witness :
    add env_c5 "demo" "x" "docs" "main" db_c5 =
      (some ("Documentation " ++ "demo" ++
        " already exists. Use rag docs update " ++ "demo" ++
        " to update it."), db_c5, []) :=
  add_existing_name_fails_and_preserves_store env_c5 "demo" "x" "docs"
    "main" db_c5 rfl

/-- C7.  `remove` is an idempotent no-op when no documentation with the
name exists (no error, store unchanged); when one exists, the operation
reports no error and afterwards no documentation row carries the name, no
file row references the documentation, and no chunk row references any of
the documentation's files. -/
theorem remove_idempotent_and_cascades (db : DB) (name : String) :
    (documentations_get db name = none → remove name db = (none, db)) ∧
    (∀ d : Documentation, documentations_get db name = some d →
      (remove name db).1 = none ∧
      (∀ x ∈ (remove name db).2.documentations, x.name ≠ name) ∧
      (∀ g ∈ (remove name db).2.files, g.documentation_id ≠ d.id) ∧
      (∀ c ∈ (remove name db).2.chunks, ∀ f ∈ db.files,
        f.documentation_id = d.id → c.file_id ≠ f.id)) := by
  constructor
  · intro hd
    simp only [remove, hd]
  · intro d hd
    have hrem : remove name db =
        (none, documentations_remove
          (delete_files_and_chunks (files_find db d.id) db) name) := by
      simp only [remove, hd]
    obtain ⟨hdocs, hnext, hfiles, hchunks⟩ :=
      delete_files_and_chunks_spec (files_find db d.id) db
    rw [hrem]
    refine ⟨rfl, ?_, ?_, ?_⟩
    · intro x hx
      have hx2 := (List.mem_filter.mp hx).2
      simpa using hx2
    · intro g hg hgd
      have hg2 : g ∈ db.files.filter
          (fun g2 => !((files_find db d.id).any (fun f => g2.id == f.id))) := by
        rw [← hfiles]
        exact hg
      obtain ⟨hgm, hgf⟩ := List.mem_filter.mp hg2
      have hmem : g ∈ files_find db d.id :=
        List.mem_filter.mpr ⟨hgm, by simp [hgd]⟩
      have hany : (files_find db d.id).any (fun f => g.id == f.id) = true :=
        List.any_eq_true.mpr ⟨g, hmem, by simp⟩
      rw [hany] at hgf
      exact absurd hgf (by simp)
    · intro c hc f hf hfd hcf
      have hc2 : c ∈ db.chunks.filter
          (fun c2 => !((files_find db d.id).any
            (fun f2 => c2.file_id == f2.id))) := by
        rw [← hchunks]
        exact hc
      obtain ⟨hcm, hcb⟩ := List.mem_filter.mp hc2
      have hmem : f ∈ files_find db d.id :=
        List.mem_filter.mpr ⟨hf, by simp [hfd]⟩
      have hany : (files_find db d.id).any
          (fun f2 => c.file_id == f2.id) = true :=
        List.any_eq_true.mpr ⟨f, hmem, by simp [hcf]⟩
      rw [hany] at hcb
      exact absurd hcb (by simp)

/-- Witness for C7: removing an absent name is a no-op on a concrete
store, and removing `demo` leaves no file row of documentation 0. -/
theorem remove_idempotent_and_cascades_witness :
    remove "missing" db_c7 = (none, db_c7) ∧
    (remove "demo" db_c7).2.files.all
      (fun f => !(f.documentation_id == 0)) = true := by
  constructor
  · exact (remove_idempotent_and_cascades db_c7 "missing").1 rfl
  · apply List.all_eq_true.mpr
    intro f hf
    have h := ((remove_idempotent_and_cascades db_c7 "demo").2
      ⟨0, "demo", "r", "", "main"⟩ rfl).2.2.1 f hf
    simpa using h

/-- C8.  For every file ingested by `add_file_to_documentation`, the
created chunk rows carry indexes forming the contiguous sequence 0..n-1
in the order the chunker produced the drafts (one row per draft when the
call succeeds), and under the freshness discipline of the store
(`chunks_bounded`) each of the three operations preserves the invariant
that every file's chunk indexes are 0..n-1 with no gaps. -/
theorem operations_preserve_chunk_index_invariant (env : Env) (db : DB)
    (hb : chunks_bounded db) (hinv : ChunkIndexInvariant db) :
    (∀ name repo_url subdir branch,
      ChunkIndexInvariant (add env name repo_url subdir branch db).2.1) ∧
    (∀ name options,
      ChunkIndexInvariant (update env name options db).2.1) ∧
    (∀ name, ChunkIndexInvariant (remove name db).2) ∧
    (∀ disk doc fn, ∃ new : List Chunk,
      (add_file_to_documentation env disk doc fn db).2.1.chunks =
        db.chunks ++ new ∧
      new.map Chunk.index = List.range new.length ∧
      new.map (fun c => (c.metadata, c.content)) =
        ((env.get_file_chunks (lookup_content disk fn)).take new.length).map
          (fun d => (d.metadata, d.content)) ∧
      ((add_file_to_documentation env disk doc fn db).1 = none →
        new.length = (env.get_file_chunks (lookup_content disk fn)).length)) := by
  refine ⟨?_, ?_, ?_, ?_⟩
  · intro name repo_url subdir branch
    exact (add_preserves env name repo_url subdir branch db hb hinv).2
  · intro name options
    exact (update_preserves env name options db hb hinv).2
  · intro name
    exact (remove_op_preserves name db hb hinv).2
  · intro disk doc fn
    obtain ⟨new, h1, h2, _, _, h5, h6⟩ := add_file_chunks env disk doc fn db
    exact ⟨new, h1, h2, h5, h6⟩

/-- Witness for C8: after adding `demo` to the empty store, the chunk
indexes of file 1 form a contiguous range. -/
theorem operations_preserve_chunk_index_invariant_witness :
    indexes_of (add env_c8 "demo" "r" "" "main" db_c8).2.1.chunks 1 =
      List.range
        (indexes_of (add env_c8 "demo" "r" "" "main" db_c8).2.1.chunks 1).length := by
  have hb : chunks_bounded db_c8 := by
    intro c hc
    exact absurd hc (List.not_mem_nil c)
  have hinv : ChunkIndexInvariant db_c8 := fun fid => rfl
  exact (operations_preserve_chunk_index_invariant env_c8 db_c8 hb hinv).1
    "demo" "r" "" "main" 1

/-- C9.  Every chunk row persisted by an `add` or an `update` (i.e.,
present afterwards without predating the operation) had its embedded text
sent to the embedding backend during the operation, and that text is
`embed_text` of its metadata and content — the serialized metadata
(`yaml.stringify`), the fixed delimiter `"\n---\n"`, then the raw chunk
content (`common.ts` line 14).  The third component of each operation's
result is the trace of the texts passed to `embed`, recorded at the call
site. -/
theorem embedded_text_is_metadata_delimiter_content (env : Env) (db : DB)
    (name repo_url subdir branch : String) (options : UpdateOptions) :
    (∀ c ∈ (add env name repo_url subdir branch db).2.1.chunks,
      c ∈ db.chunks ∨ embed_text env ⟨c.metadata, c.content⟩ ∈
        (add env name repo_url subdir branch db).2.2) ∧
    (∀ c ∈ (update env name options db).2.1.chunks,
      c ∈ db.chunks ∨ embed_text env ⟨c.metadata, c.content⟩ ∈
        (update env name options db).2.2) := by
  constructor
  · by_cases h : documentations_has db name = true
    · simp only [add]
      rw [if_pos h]
      intro c hc
      exact Or.inl hc
    · simp only [add]
      rw [if_neg h]
      intro c hc
      rcases ingest_files_chunk_source env
        (clone_repo env repo_url branch subdir)
        (documentations_create db name repo_url subdir branch).1
        (get_md_files (clone_repo env repo_url branch subdir))
        (documentations_create db name repo_url subdir branch).2 c hc
        with h2 | h2
      · exact Or.inl h2
      · exact Or.inr h2
  · cases hd : documentations_get db name with
    | none =>
      simp only [update, hd]
      intro c hc
      exact Or.inl hc
    | some documentation =>
      have hsrc := update_files_chunk_source env
        (clone_repo env documentation.repo_url documentation.branch
          documentation.subdir)
        documentation
        (files_find (documentations_update db name options) documentation.id)
        (get_md_files (clone_repo env documentation.repo_url
          documentation.branch documentation.subdir))
        [] (documentations_update db name options)
      simp only [update, hd]
      rcases hU : update_files env
        (clone_repo env documentation.repo_url documentation.branch
          documentation.subdir)
        documentation
        (files_find (documentations_update db name options) documentation.id)
        (get_md_files (clone_repo env documentation.repo_url
          documentation.branch documentation.subdir))
        [] (documentations_update db name options) with ⟨err, db2, seen, ts⟩
      rw [hU] at hsrc
      cases err with
      | some e =>
        intro c hc
        rcases hsrc c hc with h2 | h2
        · exact Or.inl h2
        · exact Or.inr h2
      | none =>
        intro c hc
        have hc1 : c ∈ (delete_files_and_chunks
            ((files_find (documentations_update db name options)
              documentation.id).filter
              (fun f => !(js_mem (File.js_filename f) seen))) db2).chunks := hc
        have hc2 : c ∈ db2.chunks := by
          obtain ⟨_, _, _, hch⟩ := delete_files_and_chunks_spec
            ((files_find (documentations_update db name options)
              documentation.id).filter
              (fun f => !(js_mem (File.js_filename f) seen))) db2
          rw [hch] at hc1
          exact (List.mem_filter.mp hc1).1
        rcases hsrc c hc2 with h2 | h2
        · exact Or.inl h2
        · exact Or.inr h2

/-- Witness for C9: the single chunk persisted by the witness update is
covered — it is new, and its embedded text is in the trace. -/
theorem embedded_text_witness :
    chunk_c9 ∈ db_c9.chunks ∨
      embed_text env_c9 ⟨chunk_c9.metadata, chunk_c9.content⟩ ∈
        (update env_c9 "demo" ⟨none, none, none⟩ db_c9).2.2 :=
  (embedded_text_is_metadata_delimiter_content env_c9 db_c9 "demo" "r" ""
    "main" ⟨none, none, none⟩).2 chunk_c9 (by decide)

/-- C10.  `config.get` is memoized: on the first call with an empty cache
and no config file it writes the serialized defaults to disk and caches
them; and after any successful call, every later call returns the same
`Config` value and leaves the state unchanged, whatever the config file
meanwhile contains (no re-read) and without writing it (no re-write). -/
theorem config_get_memoized (env : ConfigEnv) :
    (∀ s : ConfigState, s.cached = none → s.file = none →
      config_get env s =
        (some (config_defaults env),
         ⟨some (config_defaults env),
          some (env.stringify (config_defaults env))⟩)) ∧
    (∀ (s s1 : ConfigState) (c : Config),
      config_get env s = (some c, s1) →
      ∀ g : Option String,
        config_get env ⟨s1.cached, g⟩ = (some c, ⟨s1.cached, g⟩)) := by
  constructor
  · intro s h1 h2
    rcases s with ⟨cached, file⟩
    cases cached with
    | some c0 => exact absurd h1 (by simp)
    | none =>
      cases file with
      | some t => exact absurd h2 (by simp)
      | none => rfl
  · intro s s1 c h g
    have hc : s1.cached = some c := by
      rcases s with ⟨cached, file⟩
      cases cached with
      | some c0 =>
        injection h with h1 h2
        rw [← h2]
        exact h1
      | none =>
        cases file with
        | none =>
          injection h with h1 h2
          rw [← h2]
          exact h1
        | some text =>
          have heq : config_get env ⟨none, some text⟩ =
              match env.parse text with
              | none => (none, (⟨none, some text⟩ : ConfigState))
              | some c1 => (some c1, ⟨some c1, some text⟩) := rfl
          cases hp : env.parse text with
          | none =>
            rw [heq, hp] at h
            injection h with h1 _
            exact absurd h1 (by simp)
          | some c1 =>
            rw [heq, hp] at h
            injection h with h1 h2
            rw [← h2]
            exact h1
    rw [show (⟨s1.cached, g⟩ : ConfigState) = ⟨some c, g⟩ from by rw [hc]]
    rfl

/-- Witness for C10: with no cache and no file the first call writes the
defaults, and a later call — even after the on-disk file changed —
returns the same value without touching the state. -/
theorem config_get_memoized_witness :
    config_get env_c10 ⟨none, none⟩ =
      (some (config_defaults env_c10),
       ⟨some (config_defaults env_c10), some "database_path yaml"⟩) ∧
    config_get env_c10 ⟨some (config_defaults env_c10), some "changed"⟩ =
      (some (config_defaults env_c10),
       ⟨some (config_defaults env_c10), some "changed"⟩) := by
  constructor
  · exact (config_get_memoized env_c10).1 ⟨none, none⟩ rfl rfl
  · exact (config_get_memoized env_c10).2 ⟨none, none⟩
      ⟨some (config_defaults env_c10), some "database_path yaml"⟩
      (config_defaults env_c10)
      ((config_get_memoized env_c10).1 ⟨none, none⟩ rfl rfl)
      (some "changed")

end Rag
